import Mathlib

/- Verification of the rate-limited batch runner: a shallow embedding of
   agents/agent.py (token quota gate, answer extraction), app.py (batch loop,
   single-question path) and api.py (submission classification), with the
   properties of the specification proved or refuted over it. -/

namespace Gaia

/-! Constants of agents/agent.py lines 9-11. -/

def RPM : Nat := 15

def TPM : Nat := 1000000

def PER_MINUTE : Nat := 60

/-- State of SimpleGeminiAgent: minute_start, tokens_this_minute, token_count
(agent.py lines 52-54), with the clock in integral time units. -/
structure AgentState where
  minute_start : Nat
  tokens_this_minute : Nat
  token_count : Nat
deriving DecidableEq

/-- Lines 59-62 of agent.py: zero the window counter and restart the window
when 60 time units have elapsed since minute_start. -/
def windowReset (s : AgentState) (now : Nat) : AgentState :=
  if 60 ≤ now - s.minute_start then
    { s with tokens_this_minute := 0, minute_start := now }
  else s

/-- Lines 64-69 of agent.py: when tokens_this_minute + token_count exceeds
TPM, sleep for max 0 (60 - (now - minute_start)) time units, zero the counter
and restart the window at the wake-up time. Returns the state after the gate
together with the time at which the generation call starts. -/
def tokenGate (s : AgentState) (now : Nat) : AgentState × Nat :=
  if TPM < s.tokens_this_minute + s.token_count then
    ({ s with tokens_this_minute := 0, minute_start := now + (60 - (now - s.minute_start)) },
      now + (60 - (now - s.minute_start)))
  else (s, now)

/-- Lines 59-69 of agent.py: the full token-quota admission gate of
SimpleGeminiAgent.__call__ for a call arriving at time now. -/
def gateStep (s : AgentState) (now : Nat) : AgentState × Nat :=
  tokenGate (windowReset s now) now

/-- Lines 59-77 of agent.py: one gated call; cost is the total_token_count the
call turns out to consume, added to both counters (lines 76-77). The
generation call is taken to be instantaneous, so the cost is recorded at the
time the gate releases the call. -/
def callStep (s : AgentState) (now cost : Nat) : AgentState × Nat :=
  let g := gateStep s now
  ({ g.1 with
      tokens_this_minute := g.1.tokens_this_minute + cost,
      token_count := g.1.token_count + cost }, g.2)

/-- Simulated clock: run a sequence of calls, each given by its arrival time
and its token cost; returns the final state and the list of
(record time, cost) events. -/
def runCalls (s : AgentState) : List (Nat × Nat) → AgentState × List (Nat × Nat)
  | [] => (s, [])
  | (now, cost) :: rest =>
    let c := callStep s now cost
    let r := runCalls c.1 rest
    (r.1, (c.2, cost) :: r.2)

/-- Sum of the token costs recorded inside the rolling window [t, t+60). -/
def recordedInWindow (evs : List (Nat × Nat)) (t : Nat) : Nat :=
  ((evs.filter (fun e => t ≤ e.1 && e.1 < t + 60)).map (fun e => e.2)).sum

/-- Modelled from the spec: the call-rate gate of SimpleGeminiAgent.__call__
is the sleep_and_retry and limits decorator pair of the external ratelimit
package (agent.py lines 56-57), whose implementation is not part of this
repository. Spec section 4.1 describes it as a rolling-window limiter: when
the limit is reached, the next call blocks until the oldest call in the
window ages out. Accordingly, for nondecreasing arrival times a, call i
starts at its arrival time or, when RPM calls are still inside the rolling
window, when the call RPM positions earlier ages out of it. -/
def rateStart (a : Nat → Nat) (i : Nat) : Nat :=
  if h : RPM ≤ i then max (a i) (rateStart a (i - RPM) + PER_MINUTE)
  else a i
termination_by i
decreasing_by
  simp only [RPM] at h ⊢
  omega

/-- Answer marker of strip_answer (agent.py line 26), as a character list. -/
def marker : List Char :=
  ['F', 'I', 'N', 'A', 'L', ' ', 'A', 'N', 'S', 'W', 'E', 'R', ':']

/-- Python membership test of one string inside another, on character lists. -/
def containsSub (sep : List Char) : List Char → Bool
  | [] => sep.isEmpty
  | c :: cs => sep.isPrefixOf (c :: cs) || containsSub sep cs

/-- sep occurs in s at position i. -/
def occursAtB (sep s : List Char) (i : Nat) : Bool :=
  sep.isPrefixOf (s.drop i)

/-- Python str.split on a separator, fuelled so that the recursion is
structural; any fuel of at least s.length gives the same value. Splitting is
at leftmost non-overlapping occurrences, as in Python. -/
def splitSubF (sep : List Char) : Nat → List Char → List (List Char)
  | _, [] => [[]]
  | 0, _ :: _ => []
  | f + 1, c :: cs =>
    if sep.isPrefixOf (c :: cs) then
      [] :: splitSubF sep f (cs.drop (sep.length - 1))
    else
      match splitSubF sep f cs with
      | [] => [[c]]
      | h :: t => (c :: h) :: t

/-- Python s.split(sep) for a non-empty separator. -/
def splitSub (sep s : List Char) : List (List Char) :=
  splitSubF sep s.length s

/-- Python str.strip: drop whitespace from both ends. -/
def pyStrip (s : List Char) : List Char :=
  ((s.dropWhile Char.isWhitespace).reverse.dropWhile Char.isWhitespace).reverse

/-- agent.py lines 22-29: when the text contains the marker, take element 1
of the split at the marker (the code indexes [1], which exists whenever the
marker occurs) and strip it; otherwise strip the whole text. -/
def strip_answer (answer : List Char) : List Char :=
  if containsSub marker answer then
    pyStrip ((splitSub marker answer).getD 1 [])
  else pyStrip answer

/-- One question record as delivered by the question source; item.get yields
none for a missing key (app.py lines 33-34). -/
structure QItem where
  task_id : Option String
  question : Option String
deriving DecidableEq

structure SubmissionEntry where
  task_id : Option String
  submitted_answer : String
deriving DecidableEq

structure LogRow where
  task_id : Option String
  question : Option String
  submitted_answer : String
deriving DecidableEq

/-- Python truthiness of an optional string: None and the empty string are
falsy. -/
def pyFalsyStr : Option String → Bool
  | none => true
  | some s => s.isEmpty

/-- app.py line 35: the condition "if not task_id or question_text is None"
under which the batch loop skips a record. -/
def skipItem (it : QItem) : Bool :=
  pyFalsyStr it.task_id || it.question.isNone

/-- Outcome of one opaque agent invocation on an optional question text:
ok with the answer, or error with the message of the raised exception. -/
def AgentFun : Type := Option String → Except String String

def exceptOk : Except String String → Bool
  | .ok _ => true
  | .error _ => false

/-- app.py lines 33-44: processing of a single record of the batch loop. -/
def processItem (agent : AgentFun) (it : QItem) :
    List SubmissionEntry × List LogRow :=
  if skipItem it then ([], [])
  else
    match agent it.question with
    | .ok ans => ([⟨it.task_id, ans⟩], [⟨it.task_id, it.question, ans⟩])
    | .error e => ([], [⟨it.task_id, it.question, "AGENT ERROR: " ++ e⟩])

/-- app.py lines 29-44: the batch loop, accumulating answers_payload and
results_log in order. -/
def runLoop (agent : AgentFun) : List QItem → List SubmissionEntry × List LogRow
  | [] => ([], [])
  | it :: rest =>
    let p := processItem agent it
    let r := runLoop agent rest
    (p.1 ++ r.1, p.2 ++ r.2)

/-- Outcome of a run after the batch loop: either the empty-payload early
return of app.py lines 46-48 (submission never performed), or the submission
call reached with the given payload and log (lines 50-57). -/
inductive RunOutcome where
  | noAnswers (status : String) (log : List LogRow)
  | submitted (payload : List SubmissionEntry) (log : List LogRow)
deriving DecidableEq

/-- app.py lines 29-57 after a successful fetch: run the loop and either stop
with the no-answers status or proceed to submission. -/
def run_and_submit_all (agent : AgentFun) (questions_data : List QItem) :
    RunOutcome :=
  let r := runLoop agent questions_data
  if r.1.isEmpty then
    .noAnswers "Agent did not produce any answers to submit." r.2
  else
    .submitted r.1 r.2

/-- app.py lines 73-99: the single-random-question path, for the chosen
record question_data. The missing-field check on lines 78-79 only logs a
warning; the agent is invoked unconditionally on the optional question text
and its outcome is appended with the fields as they are. -/
def run_and_submit_one (agent : AgentFun) (question_data : QItem) : RunOutcome :=
  let p :=
    match agent question_data.question with
    | .ok ans =>
      ([SubmissionEntry.mk question_data.task_id ans],
       [LogRow.mk question_data.task_id question_data.question ans])
    | .error e =>
      (([] : List SubmissionEntry),
       [LogRow.mk question_data.task_id question_data.question
         ("AGENT ERROR: " ++ e)])
  if p.1.isEmpty then
    .noAnswers "Agent did not produce any answers to submit." p.2
  else
    .submitted p.1 p.2

/-- Parsed JSON body of a successful submission response (api.py lines
44-51); each field carries its displayed string rendering, none when the key
is absent. -/
structure SuccessBody where
  username : Option String
  score : Option String
  correct_count : Option String
  total_attempted : Option String
  message : Option String
deriving DecidableEq

/-- Outcome of the requests.post call in submit_answers, classified by which
branch of api.py lines 41-80 it triggers: ok with the parsed body; HTTPError
with the status code, a parse of the error body (none when response.json()
raises JSONDecodeError, otherwise the optional detail field) and the raw
response text carried as a character list; Timeout; any other
RequestException with its message; any other exception with its message. -/
inductive PostResult where
  | ok (body : SuccessBody)
  | httpError (status_code : Nat) (json_detail : Option (Option String)) (text : List Char)
  | timeout
  | netError (msg : String)
  | unexpected (msg : String)

/-- api.py lines 40-80: submit_answers builds the status message of the
branch taken and returns it together with the accumulated results_log in
every branch. -/
def submit_answers (r : PostResult) (results_log : List LogRow) :
    String × List LogRow :=
  match r with
  | .ok b =>
    ("Submission Successful!\n" ++ "User: " ++ b.username.getD "None" ++
       "\n" ++ "Overall Score: " ++ b.score.getD "N/A" ++ "% (" ++
       b.correct_count.getD "?" ++ "/" ++ b.total_attempted.getD "?" ++
       " correct)\n" ++ "Message: " ++ b.message.getD "No message received.",
     results_log)
  | .httpError code jd text =>
    let detail := "Server responded with status " ++ toString code ++ "." ++
      (match jd with
       | some d => " Detail: " ++ d.getD (String.mk text)
       | none => " Response: " ++ String.mk (text.take 500))
    ("Submission Failed: " ++ detail, results_log)
  | .timeout => ("Submission Failed: The request timed out.", results_log)
  | .netError m => ("Submission Failed: Network error - " ++ m, results_log)
  | .unexpected m =>
    ("An unexpected error occurred during submission: " ++ m, results_log)

/-- msg contains sub as a contiguous substring. -/
abbrev msgHas (msg sub : String) : Prop :=
  containsSub sub.data msg.data = true

/-! Lemmas and theorems about the token-quota gate (claims C1 and C2). -/

lemma tokenGate_tokens_le (s : AgentState) (now : Nat) :
    (tokenGate s now).1.tokens_this_minute ≤ TPM := by
  unfold tokenGate
  split_ifs with h
  · exact Nat.zero_le _
  · simp only
    omega

lemma gateStep_tokens_le (s : AgentState) (now : Nat) :
    (gateStep s now).1.tokens_this_minute ≤ TPM :=
  tokenGate_tokens_le (windowReset s now) now

lemma callStep_tokens_le (s : AgentState) (now cost : Nat) :
    (callStep s now cost).1.tokens_this_minute ≤ TPM + cost := by
  have h := gateStep_tokens_le s now
  unfold callStep
  simp only
  omega

lemma runCalls_append_fst (s : AgentState) (l₁ l₂ : List (Nat × Nat)) :
    (runCalls s (l₁ ++ l₂)).1 = (runCalls (runCalls s l₁).1 l₂).1 := by
  induction l₁ generalizing s with
  | nil => rfl
  | cons e rest ih =>
    obtain ⟨now, cost⟩ := e
    simp only [List.cons_append, runCalls]
    exact ih (callStep s now cost).1

lemma windowReset_token_count (s : AgentState) (now : Nat) :
    (windowReset s now).token_count = s.token_count := by
  unfold windowReset
  split_ifs <;> rfl

lemma windowReset_recent (s : AgentState) (now : Nat) :
    now - (windowReset s now).minute_start < 60 := by
  unfold windowReset
  split_ifs with h
  · simp
  · omega

lemma gateStep_sleeps_iff (s : AgentState) (now : Nat) :
    now < (gateStep s now).2 ↔
      TPM < (windowReset s now).tokens_this_minute +
        (windowReset s now).token_count := by
  have hrec := windowReset_recent s now
  unfold gateStep tokenGate
  split_ifs with h
  · exact iff_of_true (by omega) h
  · exact iff_of_false (lt_irrefl now) h

/-- C2 counterexample: start the clock at 0 and run three calls of cost
250000 at times 0, 1, 2. The window counter then holds 750000 and the
previous call cost 250000, so the claimed admission rule (window counter plus
last cost above TPM) would admit a call at time 3; the code nevertheless
makes it sleep, because the gate adds the cumulative token_count 750000
rather than the last observed cost. -/
theorem C2_counterexample :
    ((runCalls ⟨0, 0, 0⟩
        [(0, 250000), (1, 250000), (2, 250000)]).1.tokens_this_minute
      = 750000) ∧
    ((runCalls ⟨0, 0, 0⟩
        [(0, 250000), (1, 250000), (2, 250000)]).1.tokens_this_minute
      + 250000 ≤ TPM) ∧
    (3 < (gateStep (runCalls ⟨0, 0, 0⟩
        [(0, 250000), (1, 250000), (2, 250000)]).1 3).2) := by
  refine ⟨by decide, by decide, by decide⟩

/-- C2 (amended): a call arriving at time now is made to sleep exactly when,
after the elapsed-window reset of agent.py lines 59-62, tokens_this_minute
plus the cumulative lifetime counter token_count exceeds TPM. In particular,
once token_count alone exceeds TPM, every subsequent call sleeps. -/
theorem C2_gate_uses_cumulative_count :
    (∀ (s : AgentState) (now : Nat),
      now < (gateStep s now).2 ↔
        TPM < (windowReset s now).tokens_this_minute +
          (windowReset s now).token_count) ∧
    (∀ (s : AgentState) (now : Nat),
      TPM < s.token_count → now < (gateStep s now).2) := by
  refine ⟨fun s now => gateStep_sleeps_iff s now, fun s now h => ?_⟩
  rw [gateStep_sleeps_iff s now]
  have hc := windowReset_token_count s now
  omega

/-- C2 witness for the amended claim: an agent whose lifetime count already
exceeds TPM sleeps at its next call even with an empty window counter. -/
theorem C2_witness : (0 : Nat) < (gateStep ⟨0, 0, 2000000⟩ 0).2 :=
  C2_gate_uses_cumulative_count.2 ⟨0, 0, 2000000⟩ 0 (by decide)

/-- C1 counterexample: with the simulated clock started at 0 and calls of
cost 400000 arriving at times 50, 55 and 60, the gate admits all three
without sleeping and the rolling 60-unit window [50, 110) records 1200000
tokens, strictly above TPM. -/
theorem C1_counterexample :
    TPM <
      recordedInWindow
        (runCalls ⟨0, 0, 0⟩ [(50, 400000), (55, 400000), (60, 400000)]).2
        50 := by
  decide

/-- C1 (amended): over any simulated sequence of calls, after each completed
call the in-window counter tokens_this_minute — the sum of the costs recorded
since the last window reset — exceeds TPM by at most the cost of that last
call. The bound over arbitrary rolling 60-unit windows refuted above is
replaced by this per-window bound. -/
theorem C1_window_counter_bound (pre : List (Nat × Nat)) (s : AgentState)
    (now cost : Nat) :
    (runCalls s (pre ++ [(now, cost)])).1.tokens_this_minute ≤ TPM + cost := by
  rw [runCalls_append_fst]
  simpa [runCalls] using callStep_tokens_le (runCalls s pre).1 now cost

/-! Lemmas about the Python split embedding (claims C3 and C8). -/

lemma isPrefixOf_nil_eq (sep : List Char) :
    sep.isPrefixOf ([] : List Char) = sep.isEmpty := by
  cases sep <;> rfl

lemma isPrefixOf_append_self (l t : List Char) : l.isPrefixOf (l ++ t) = true := by
  induction l with
  | nil => cases t <;> rfl
  | cons c cs ih => simp [List.isPrefixOf, ih]

lemma isPrefixOf_exists_append {l t : List Char} (h : l.isPrefixOf t = true) :
    ∃ r, t = l ++ r := by
  induction l generalizing t with
  | nil => exact ⟨t, rfl⟩
  | cons c cs ih =>
    cases t with
    | nil => simp [List.isPrefixOf] at h
    | cons d ds =>
      simp only [List.isPrefixOf, Bool.and_eq_true, beq_iff_eq] at h
      obtain ⟨r, hr⟩ := ih h.2
      exact ⟨r, by simp [h.1, hr]⟩

lemma occursAtB_cons_succ (sep : List Char) (c : Char) (cs : List Char) (i : Nat) :
    occursAtB sep (c :: cs) (i + 1) = occursAtB sep cs i := rfl

lemma occursAtB_drop (sep s : List Char) (k j : Nat) :
    occursAtB sep (s.drop k) j = occursAtB sep s (k + j) := by
  rw [occursAtB, occursAtB, List.drop_drop]

lemma occursAtB_lt_length {sep s : List Char} {i : Nat} (hsep : sep ≠ [])
    (h : occursAtB sep s i = true) : i < s.length := by
  by_contra hge
  push_neg at hge
  rw [occursAtB, List.drop_eq_nil_of_le hge, isPrefixOf_nil_eq] at h
  cases sep with
  | nil => exact hsep rfl
  | cons c cs => simp at h

lemma containsSub_iff (sep s : List Char) :
    containsSub sep s = true ↔ ∃ i, occursAtB sep s i = true := by
  induction s with
  | nil =>
    constructor
    · intro h
      exact ⟨0, by rw [occursAtB, List.drop_nil, isPrefixOf_nil_eq]; exact h⟩
    · rintro ⟨i, h⟩
      rw [occursAtB, List.drop_nil, isPrefixOf_nil_eq] at h
      exact h
  | cons c cs ih =>
    simp only [containsSub, Bool.or_eq_true, ih]
    constructor
    · rintro (h | ⟨i, h⟩)
      · exact ⟨0, h⟩
      · exact ⟨i + 1, h⟩
    · rintro ⟨i, h⟩
      cases i with
      | zero => exact Or.inl h
      | succ j => exact Or.inr ⟨j, h⟩

lemma splitSubF_fuel_irrel (sep : List Char) :
    ∀ (f₁ f₂ : Nat) (s : List Char), s.length ≤ f₁ → s.length ≤ f₂ →
      splitSubF sep f₁ s = splitSubF sep f₂ s := by
  intro f₁
  induction f₁ with
  | zero =>
    intro f₂ s h1 _
    have hs : s = [] := List.eq_nil_of_length_eq_zero (Nat.le_zero.mp h1)
    subst hs
    cases f₂ <;> rfl
  | succ f ih =>
    intro f₂ s h1 h2
    cases s with
    | nil => cases f₂ <;> rfl
    | cons c cs =>
      cases f₂ with
      | zero => simp at h2
      | succ g =>
        have hcs : cs.length ≤ f := by simp at h1; omega
        have hcs2 : cs.length ≤ g := by simp at h2; omega
        have hd : (cs.drop (sep.length - 1)).length ≤ f := by
          rw [List.length_drop]; omega
        have hd2 : (cs.drop (sep.length - 1)).length ≤ g := by
          rw [List.length_drop]; omega
        simp only [splitSubF]
        rw [ih g (cs.drop (sep.length - 1)) hd hd2, ih g cs hcs hcs2]

lemma splitSub_no_occurrence (sep : List Char) :
    ∀ s : List Char, (∀ j, occursAtB sep s j = false) → splitSub sep s = [s] := by
  intro s
  induction s with
  | nil => intro _; rfl
  | cons c cs ih =>
    intro hno
    have h0 : sep.isPrefixOf (c :: cs) = false := hno 0
    have hcs : ∀ j, occursAtB sep cs j = false := fun j => hno (j + 1)
    show splitSubF sep (c :: cs).length (c :: cs) = [c :: cs]
    simp only [List.length_cons, splitSubF, h0, Bool.false_eq_true, if_false]
    have hh : splitSubF sep cs.length cs = [cs] := ih hcs
    rw [hh]

lemma splitSub_first_occurrence (sep : List Char) (hsep : sep ≠ []) :
    ∀ (i : Nat) (s : List Char), occursAtB sep s i = true →
      (∀ j, j < i → occursAtB sep s j = false) →
      splitSub sep s = s.take i :: splitSub sep (s.drop (i + sep.length)) := by
  intro i
  induction i with
  | zero =>
    intro s hocc _
    obtain ⟨r, hr⟩ := isPrefixOf_exists_append hocc
    subst hr
    cases hs : sep with
    | nil => exact absurd hs hsep
    | cons a as =>
      subst hs
      show splitSubF (a :: as) ((a :: as) ++ r).length ((a :: as) ++ r) = _
      have hlen : ((a :: as) ++ r).length = (as ++ r).length + 1 := by
        simp
      rw [hlen]
      show splitSubF (a :: as) ((as ++ r).length + 1) (a :: (as ++ r)) = _
      have hp : (a :: as).isPrefixOf (a :: (as ++ r)) = true :=
        isPrefixOf_append_self (a :: as) r
      simp only [splitSubF]
      rw [if_pos hp]
      have hd : (as ++ r).drop ((a :: as).length - 1) = r := by
        simp only [List.length_cons, Nat.add_sub_cancel]
        exact List.drop_left as r
      rw [hd]
      have hfr : splitSubF (a :: as) (as ++ r).length r = splitSub (a :: as) r :=
        splitSubF_fuel_irrel _ _ _ _ (by simp) le_rfl
      rw [hfr]
      have hdr : ((a :: as) ++ r).drop (0 + (a :: as).length) = r := by
        rw [Nat.zero_add]
        exact List.drop_left (a :: as) r
      rw [List.take_zero, hdr]
  | succ i ih =>
    intro s hocc hfirst
    cases s with
    | nil =>
      rw [occursAtB, List.drop_nil, isPrefixOf_nil_eq] at hocc
      cases sep with
      | nil => exact absurd rfl hsep
      | cons a as => simp at hocc
    | cons c cs =>
      have h0 : sep.isPrefixOf (c :: cs) = false := hfirst 0 (Nat.succ_pos i)
      have hocc' : occursAtB sep cs i = true := hocc
      have hfirst' : ∀ j, j < i → occursAtB sep cs j = false :=
        fun j hj => hfirst (j + 1) (by omega)
      show splitSubF sep (c :: cs).length (c :: cs) = _
      simp only [List.length_cons, splitSubF, h0, Bool.false_eq_true, if_false]
      have hh : splitSubF sep cs.length cs
          = cs.take i :: splitSub sep (cs.drop (i + sep.length)) :=
        ih cs hocc' hfirst'
      rw [hh]
      have hdr : (c :: cs).drop (i + 1 + sep.length) = cs.drop (i + sep.length) := by
        rw [show i + 1 + sep.length = (i + sep.length) + 1 from by omega,
          List.drop_succ_cons]
      rw [List.take_succ_cons, hdr]

lemma marker_ne_nil : marker ≠ [] := by decide

/-- C8: strip_answer on a text in which the marker occurs exactly once (at
position i) returns everything after the marker, stripped of surrounding
whitespace; on a text with no occurrence it returns the whole text, stripped
of surrounding whitespace. -/
theorem C8_strip_answer_correct :
    (∀ (s : List Char) (i : Nat), occursAtB marker s i = true →
      (∀ j, j < s.length → occursAtB marker s j = true → j = i) →
      strip_answer s = pyStrip (s.drop (i + marker.length))) ∧
    (∀ s : List Char, (∀ j, j < s.length → occursAtB marker s j = false) →
      strip_answer s = pyStrip s) := by
  constructor
  · intro s i hocc huniq
    have huniq' : ∀ j, occursAtB marker s j = true → j = i := fun j hj =>
      huniq j (occursAtB_lt_length marker_ne_nil hj) hj
    have hfirst : ∀ j, j < i → occursAtB marker s j = false := by
      intro j hj
      cases h : occursAtB marker s j with
      | false => rfl
      | true => exact absurd (huniq' j h) (by omega)
    have hrest : ∀ j, occursAtB marker (s.drop (i + marker.length)) j = false := by
      intro j
      cases h : occursAtB marker (s.drop (i + marker.length)) j with
      | false => rfl
      | true =>
        rw [occursAtB_drop] at h
        have := huniq' _ h
        have hm : 0 < marker.length := by decide
        omega
    have hsplit := splitSub_first_occurrence marker marker_ne_nil i s hocc hfirst
    have hrest' := splitSub_no_occurrence marker _ hrest
    have hcontains : containsSub marker s = true :=
      (containsSub_iff marker s).mpr ⟨i, hocc⟩
    rw [strip_answer, if_pos hcontains, hsplit, hrest']
    rfl
  · intro s hno
    have hcontains : containsSub marker s = false := by
      cases h : containsSub marker s with
      | false => rfl
      | true =>
        obtain ⟨j, hj⟩ := (containsSub_iff marker s).mp h
        have hlt := occursAtB_lt_length marker_ne_nil hj
        rw [hno j hlt] at hj
        exact absurd hj (by simp)
    rw [strip_answer, if_neg (by simp [hcontains])]

/-- C8 witness: the two examples of the specification, a text with the
marker occurring exactly once at position 13 and a text with no marker. -/
theorem C8_witness :
    strip_answer ("reasoning... FINAL ANSWER: 42").data
        = pyStrip (("reasoning... FINAL ANSWER: 42").data.drop (13 + marker.length)) ∧
    strip_answer ("no marker here").data = pyStrip ("no marker here").data :=
  ⟨C8_strip_answer_correct.1 _ 13 (by decide) (by decide),
   C8_strip_answer_correct.2 _ (by decide)⟩

/-- C3 counterexample: on a text where the marker occurs twice (positions 0
and 16), strip_answer returns only the single character between the two
occurrences, not everything after the first match. -/
theorem C3_counterexample :
    occursAtB marker ("FINAL ANSWER: a FINAL ANSWER: b").data 0 = true ∧
    occursAtB marker ("FINAL ANSWER: a FINAL ANSWER: b").data 16 = true ∧
    strip_answer ("FINAL ANSWER: a FINAL ANSWER: b").data = ['a'] ∧
    pyStrip (("FINAL ANSWER: a FINAL ANSWER: b").data.drop (0 + marker.length))
        = ("a FINAL ANSWER: b").data ∧
    strip_answer ("FINAL ANSWER: a FINAL ANSWER: b").data ≠
      pyStrip (("FINAL ANSWER: a FINAL ANSWER: b").data.drop (0 + marker.length)) := by
  refine ⟨by decide, by decide, by decide, by decide, by decide⟩

/-- C3 (amended): when the marker occurs more than once, strip_answer splits
at every occurrence and returns element 1, i.e. the segment strictly between
the first occurrence (at position i) and the next occurrence (at offset j
inside the remainder), trimmed of surrounding whitespace. -/
theorem C3_between_first_and_second (s : List Char) (i j : Nat)
    (hi : occursAtB marker s i = true)
    (hfi : ∀ k, k < i → occursAtB marker s k = false)
    (hj : occursAtB marker (s.drop (i + marker.length)) j = true)
    (hfj : ∀ k, k < j → occursAtB marker (s.drop (i + marker.length)) k = false) :
    strip_answer s = pyStrip ((s.drop (i + marker.length)).take j) := by
  have hsplit := splitSub_first_occurrence marker marker_ne_nil i s hi hfi
  have hsplit2 := splitSub_first_occurrence marker marker_ne_nil j _ hj hfj
  have hcontains : containsSub marker s = true :=
    (containsSub_iff marker s).mpr ⟨i, hi⟩
  rw [strip_answer, if_pos hcontains, hsplit, hsplit2]
  rfl

/-- C3 witness for the amended claim: on the double-marker text the first
occurrence is at 0, the next at offset 3 of the remainder, and the result is
the stripped segment between them. -/
theorem C3_witness :
    strip_answer ("FINAL ANSWER: a FINAL ANSWER: b").data
      = pyStrip ((("FINAL ANSWER: a FINAL ANSWER: b").data.drop
          (0 + marker.length)).take 3) :=
  C3_between_first_and_second _ 0 3 (by decide) (by decide) (by decide) (by decide)

/-! Theorems about the batch loop of app.py (claims C5, C6, C9, C10). -/

lemma runLoop_cons (agent : AgentFun) (x : QItem) (l : List QItem) :
    runLoop agent (x :: l)
      = ((processItem agent x).1 ++ (runLoop agent l).1,
         (processItem agent x).2 ++ (runLoop agent l).2) := rfl

/-- C9: a record with a missing id or missing question text is skipped
entirely by the batch loop: it contributes no submission entry and no log
row, and the loop continues with the remaining records unchanged. -/
theorem C9_missing_fields_skipped (agent : AgentFun) (pre post : List QItem)
    (it : QItem) (h : it.task_id = none ∨ it.question = none) :
    runLoop agent (pre ++ it :: post) = runLoop agent (pre ++ post) := by
  have hskip : skipItem it = true := by
    rcases h with h | h <;> simp [skipItem, pyFalsyStr, h]
  have hp : processItem agent it = ([], []) := by
    simp [processItem, hskip]
  induction pre with
  | nil =>
    rw [List.nil_append, List.nil_append, runLoop_cons, hp]
    simp
  | cons q rest ih =>
    rw [List.cons_append, List.cons_append, runLoop_cons, runLoop_cons, ih]

/-- C9 witness: a record whose task_id key is absent is dropped from the
batch without a trace. -/
theorem C9_witness :
    runLoop (fun _ => Except.ok "x") [⟨none, some "q"⟩]
      = runLoop (fun _ => Except.ok "x") [] :=
  C9_missing_fields_skipped (fun _ => Except.ok "x") [] [] ⟨none, some "q"⟩
    (Or.inl rfl)

/-- C5: on a batch of valid records, the loop yields one submission entry per
non-failing invocation (N - K entries when K of the N invocations raise) and
one log row per record (N rows); a failure is converted into a log row and
the loop continues, so no exception escapes the loop. -/
theorem C5_per_question_isolation (agent : AgentFun) (items : List QItem)
    (hvalid : ∀ it ∈ items, skipItem it = false) :
    (runLoop agent items).1.length
        = items.length
          - (items.filter (fun it => !(exceptOk (agent it.question)))).length ∧
    (runLoop agent items).2.length = items.length := by
  induction items with
  | nil => exact ⟨rfl, rfl⟩
  | cons it rest ih =>
    have hit : skipItem it = false := hvalid it (List.mem_cons_self it rest)
    obtain ⟨ih1, ih2⟩ := ih (fun x hx => hvalid x (List.mem_cons_of_mem it hx))
    have hK := List.length_filter_le
      (fun it => !(exceptOk (agent it.question))) rest
    cases hagent : agent it.question with
    | ok a =>
      have hp : processItem agent it
          = ([⟨it.task_id, a⟩], [⟨it.task_id, it.question, a⟩]) := by
        simp [processItem, hit, hagent]
      have hcond : (!(exceptOk (agent it.question))) = false := by
        rw [hagent]; rfl
      constructor
      · rw [runLoop_cons, hp]
        simp [List.filter_cons, hcond]
        omega
      · rw [runLoop_cons, hp]
        simp [ih2]
    | error e =>
      have hp : processItem agent it
          = ([], [⟨it.task_id, it.question, "AGENT ERROR: " ++ e⟩]) := by
        simp [processItem, hit, hagent]
      have hcond : (!(exceptOk (agent it.question))) = true := by
        rw [hagent]; rfl
      constructor
      · rw [runLoop_cons, hp]
        simp [List.filter_cons, hcond]
        omega
      · rw [runLoop_cons, hp]
        simp [ih2]

/-- C5 witness: three valid questions of which exactly one invocation raises
produce two submission entries and three log rows. -/
theorem C5_witness :
    (runLoop
        (fun q => if q = some "bad" then Except.error "boom" else Except.ok "a")
        [⟨some "t1", some "q1"⟩, ⟨some "t2", some "bad"⟩, ⟨some "t3", some "q3"⟩]).1.length
      = ([⟨some "t1", some "q1"⟩, ⟨some "t2", some "bad"⟩,
            ⟨some "t3", some "q3"⟩] : List QItem).length
        - (([⟨some "t1", some "q1"⟩, ⟨some "t2", some "bad"⟩,
            ⟨some "t3", some "q3"⟩] : List QItem).filter
            (fun it => !(exceptOk
              ((fun q => if q = some "bad" then Except.error "boom"
                else Except.ok "a") it.question)))).length ∧
    (runLoop
        (fun q => if q = some "bad" then Except.error "boom" else Except.ok "a")
        [⟨some "t1", some "q1"⟩, ⟨some "t2", some "bad"⟩, ⟨some "t3", some "q3"⟩]).2.length
      = ([⟨some "t1", some "q1"⟩, ⟨some "t2", some "bad"⟩,
            ⟨some "t3", some "q3"⟩] : List QItem).length :=
  C5_per_question_isolation
    (fun q => if q = some "bad" then Except.error "boom" else Except.ok "a")
    [⟨some "t1", some "q1"⟩, ⟨some "t2", some "bad"⟩, ⟨some "t3", some "q3"⟩]
    (by decide)

/-- C6: when the batch loop produced no submission entries,
run_and_submit_all returns the distinct no-answers status together with the
accumulated log rows, and the submission step is never reached. -/
theorem C6_empty_payload_no_submission (agent : AgentFun) (items : List QItem)
    (h : (runLoop agent items).1 = []) :
    run_and_submit_all agent items
      = .noAnswers "Agent did not produce any answers to submit."
          (runLoop agent items).2 := by
  simp [run_and_submit_all, h]

/-- C6 witness: a batch whose only invocation raises yields no entries, and
the run stops with the no-answers status carrying the single error row. -/
theorem C6_witness :
    run_and_submit_all (fun _ => Except.error "boom") [⟨some "t1", some "q"⟩]
      = .noAnswers "Agent did not produce any answers to submit."
          (runLoop (fun _ => Except.error "boom") [⟨some "t1", some "q"⟩]).2 :=
  C6_empty_payload_no_submission (fun _ => Except.error "boom")
    [⟨some "t1", some "q"⟩] rfl

/-- C10: the single-question path does not skip a chosen record with a
missing task_id or question text: the agent is invoked on the optional
question text anyway, and on success a submission entry and a log row
carrying the missing fields are produced and submission is reached. -/
theorem C10_one_path_not_skipped (agent : AgentFun) (question_data : QItem)
    (_hmiss : question_data.task_id = none ∨ question_data.question = none)
    (ans : String) (hok : agent question_data.question = .ok ans) :
    run_and_submit_one agent question_data
      = .submitted [⟨question_data.task_id, ans⟩]
          [⟨question_data.task_id, question_data.question, ans⟩] := by
  simp [run_and_submit_one, hok]

/-- C10 witness: a record with both fields missing is still answered and
submitted, with none carried into the entry and the row. -/
theorem C10_witness :
    run_and_submit_one (fun _ => Except.ok "42") ⟨none, none⟩
      = .submitted [⟨none, "42"⟩] [⟨none, none, "42"⟩] :=
  C10_one_path_not_skipped (fun _ => Except.ok "42") ⟨none, none⟩
    (Or.inl rfl) "42" rfl

/-! Lemmas and theorems about submit_answers of api.py (claim C7). -/

lemma containsSub_nil_left (t : List Char) : containsSub [] t = true := by
  cases t <;> rfl

lemma isPrefixOf_append_extend {l t : List Char} (b : List Char)
    (h : l.isPrefixOf t = true) : l.isPrefixOf (t ++ b) = true := by
  obtain ⟨r, hr⟩ := isPrefixOf_exists_append h
  subst hr
  rw [List.append_assoc]
  exact isPrefixOf_append_self l (r ++ b)

lemma containsSub_append_left (sep p t : List Char)
    (h : containsSub sep t = true) : containsSub sep (p ++ t) = true := by
  induction p with
  | nil => exact h
  | cons c cs ih =>
    show (sep.isPrefixOf (c :: (cs ++ t)) || containsSub sep (cs ++ t)) = true
    rw [ih]
    simp

lemma containsSub_append_right (sep t b : List Char)
    (h : containsSub sep t = true) : containsSub sep (t ++ b) = true := by
  induction t with
  | nil =>
    cases sep with
    | nil => exact containsSub_nil_left b
    | cons a as => simp [containsSub] at h
  | cons c cs ih =>
    have h' : (sep.isPrefixOf (c :: cs) || containsSub sep cs) = true := h
    show (sep.isPrefixOf (c :: (cs ++ b)) || containsSub sep (cs ++ b)) = true
    rcases (Bool.or_eq_true _ _).mp h' with hp | hc
    · have : sep.isPrefixOf ((c :: cs) ++ b) = true := isPrefixOf_append_extend b hp
      rw [show (c :: cs) ++ b = c :: (cs ++ b) from rfl] at this
      rw [this]
      simp
    · rw [ih hc]
      simp

lemma containsSub_self_append (sep t : List Char) :
    containsSub sep (sep ++ t) = true := by
  cases sep with
  | nil => exact containsSub_nil_left t
  | cons a as =>
    show ((a :: as).isPrefixOf (a :: (as ++ t)) || _) = true
    have hp : (a :: as).isPrefixOf (a :: (as ++ t)) = true :=
      isPrefixOf_append_self (a :: as) t
    rw [hp]
    simp

lemma containsSub_count_le {sub s : List Char} (h : containsSub sub s = true)
    (c : Char) : sub.count c ≤ s.count c := by
  obtain ⟨i, hi⟩ := (containsSub_iff sub s).mp h
  obtain ⟨r, hr⟩ := isPrefixOf_exists_append hi
  have hs : s = s.take i ++ (sub ++ r) := by
    rw [← hr, List.take_append_drop]
  rw [hs, List.count_append, List.count_append]
  omega

lemma msgHas_self (sub : String) : msgHas sub sub := by
  have h := containsSub_self_append sub.data []
  rw [List.append_nil] at h
  exact h

lemma msgHas_appendl (a : String) {b sub : String} (h : msgHas b sub) :
    msgHas (a ++ b) sub := by
  show containsSub sub.data (a ++ b).data = true
  rw [String.data_append]
  exact containsSub_append_left _ _ _ h

lemma msgHas_appendr {a : String} (b : String) {sub : String}
    (h : msgHas a sub) : msgHas (a ++ b) sub := by
  show containsSub sub.data (a ++ b).data = true
  rw [String.data_append]
  exact containsSub_append_right _ _ _ h

lemma msgHas_mid (a mid b : String) : msgHas ((a ++ mid) ++ b) mid :=
  msgHas_appendr b (msgHas_appendl a (msgHas_self mid))

lemma msgHas_mid₂ (a x y z : String) :
    msgHas (((a ++ x) ++ y) ++ z) ((x ++ y) ++ z) := by
  rw [String.append_assoc a x y, String.append_assoc a (x ++ y) z]
  exact msgHas_appendl a (msgHas_self _)

/-- C7 (amended): submit_answers classifies every outcome into exactly one of
the five branches; the HTTP-error message contains the status code, the
parsed detail field when the body parsed with one, and the first 500
characters of the raw response text when the body was not parseable JSON;
the timeout message is the fixed timed-out text; the network-error and
unexpected-error messages contain the underlying error text; the success
message contains the echoed username, the score and the correct/total
counts; and every branch returns the accumulated log rows unchanged. -/
theorem C7_submission_classification :
    (∀ (r : PostResult) (log : List LogRow), (submit_answers r log).2 = log) ∧
    (∀ (code : Nat) (jd : Option (Option String)) (text : List Char)
        (log : List LogRow),
      msgHas (submit_answers (.httpError code jd text) log).1 (toString code) ∧
      (∀ d, jd = some (some d) →
        msgHas (submit_answers (.httpError code jd text) log).1 d) ∧
      (jd = none →
        msgHas (submit_answers (.httpError code jd text) log).1
          (String.mk (text.take 500)))) ∧
    (∀ log : List LogRow,
      (submit_answers .timeout log).1
        = "Submission Failed: The request timed out.") ∧
    (∀ (m : String) (log : List LogRow),
      msgHas (submit_answers (.netError m) log).1 m ∧
      msgHas (submit_answers (.unexpected m) log).1 m) ∧
    (∀ (b : SuccessBody) (u sc cc ta : String) (log : List LogRow),
      b.username = some u → b.score = some sc → b.correct_count = some cc →
      b.total_attempted = some ta →
      msgHas (submit_answers (.ok b) log).1 u ∧
      msgHas (submit_answers (.ok b) log).1 sc ∧
      msgHas (submit_answers (.ok b) log).1 (cc ++ "/" ++ ta)) := by
  refine ⟨?_, ?_, ?_, ?_, ?_⟩
  · intro r log
    cases r <;> rfl
  · intro code jd text log
    refine ⟨?_, ?_, ?_⟩
    · cases jd with
      | none =>
        exact msgHas_appendl _ (msgHas_appendr _ (msgHas_mid _ _ _))
      | some d0 =>
        exact msgHas_appendl _ (msgHas_appendr _ (msgHas_mid _ _ _))
    · intro d hd
      subst hd
      exact msgHas_appendl _ (msgHas_appendl _ (msgHas_appendl _ (msgHas_self _)))
    · intro hd
      subst hd
      exact msgHas_appendl _ (msgHas_appendl _ (msgHas_appendl _ (msgHas_self _)))
  · intro log
    rfl
  · intro m log
    exact ⟨msgHas_appendl _ (msgHas_self _), msgHas_appendl _ (msgHas_self _)⟩
  · intro b u sc cc ta log hu hsc hcc hta
    simp only [submit_answers, hu, hsc, hcc, hta, Option.getD_some]
    refine ⟨?_, ?_, ?_⟩
    · exact msgHas_appendr _ (msgHas_appendr _ (msgHas_appendr _ (msgHas_appendr _
        (msgHas_appendr _ (msgHas_appendr _ (msgHas_appendr _ (msgHas_appendr _
        (msgHas_appendr _ (msgHas_appendr _
          (msgHas_appendl _ (msgHas_self _)))))))))))
    · exact msgHas_appendr _ (msgHas_appendr _ (msgHas_appendr _ (msgHas_appendr _
        (msgHas_appendr _ (msgHas_appendr _ (msgHas_appendr _
          (msgHas_appendl _ (msgHas_self _))))))))
    · exact msgHas_appendr _ (msgHas_appendr _ (msgHas_appendr _
        (msgHas_mid₂ _ _ _ _)))

/-- C7 witness for the amended claim: the mocked outcomes of the
specification, a 422 with a parsed detail, a timeout, a success body echoing
alice with score 80 and counts 4 of 5, and a network error, each classified
with the stated message content and the log returned unchanged. -/
theorem C7_witness :
    msgHas (submit_answers
        (.httpError 422 (some (some "bad format")) ("raw").data) []).1
      (toString 422) ∧
    msgHas (submit_answers
        (.httpError 422 (some (some "bad format")) ("raw").data) []).1
      "bad format" ∧
    (submit_answers .timeout []).1
      = "Submission Failed: The request timed out." ∧
    msgHas (submit_answers
        (.ok ⟨some "alice", some "80", some "4", some "5", some "ok"⟩) []).1
      "alice" ∧
    msgHas (submit_answers
        (.ok ⟨some "alice", some "80", some "4", some "5", some "ok"⟩) []).1
      ("4" ++ "/" ++ "5") ∧
    (submit_answers (.netError "conn reset") []).2 = [] :=
  ⟨(C7_submission_classification.2.1 422 (some (some "bad format"))
      ("raw").data []).1,
   (C7_submission_classification.2.1 422 (some (some "bad format"))
      ("raw").data []).2.1 "bad format" rfl,
   C7_submission_classification.2.2.1 [],
   (C7_submission_classification.2.2.2.2
      ⟨some "alice", some "80", some "4", some "5", some "ok"⟩
      "alice" "80" "4" "5" [] rfl rfl rfl rfl).1,
   (C7_submission_classification.2.2.2.2
      ⟨some "alice", some "80", some "4", some "5", some "ok"⟩
      "alice" "80" "4" "5" [] rfl rfl rfl rfl).2.2,
   C7_submission_classification.1 (.netError "conn reset") []⟩

set_option maxRecDepth 8192 in
/-- C7 counterexample: when the error body is not parseable JSON and the raw
response text is 501 characters long, the status message contains only its
first 500 characters, not the raw response text itself: the message holds
500 occurrences of the character while the full text holds 501. -/
theorem C7_counterexample :
    ¬ msgHas
        (submit_answers (.httpError 422 none (List.replicate 501 'x')) []).1
        (String.mk (List.replicate 501 'x')) := by
  intro h
  have hcount := containsSub_count_le h 'x'
  have hsub : (String.mk (List.replicate 501 'x')).data.count 'x' = 501 := by
    show (List.replicate 501 'x').count 'x' = 501
    rw [List.count_replicate]
    decide
  have htake : (List.replicate 501 'x').take 500 = List.replicate 500 'x' := by
    rw [List.take_replicate]
    norm_num
  have e1 : (submit_answers (.httpError 422 none (List.replicate 501 'x')) []).1
      = "Submission Failed: " ++ ("Server responded with status "
          ++ toString 422 ++ "." ++ (" Response: "
          ++ String.mk (List.replicate 500 'x'))) := by
    show ("Submission Failed: " ++ ("Server responded with status "
        ++ toString 422 ++ "." ++ (" Response: "
        ++ String.mk ((List.replicate 501 'x').take 500))) : String) = _
    rw [htake]
  have hdata : (String.mk (List.replicate 500 'x')).data = List.replicate 500 'x' := rfl
  rw [hsub, e1] at hcount
  simp only [String.data_append, List.count_append, hdata] at hcount
  have h1 : ("Submission Failed: ").data.count 'x' = 0 := by decide
  have h2 : ("Server responded with status ").data.count 'x' = 0 := by decide
  have h3 : (toString 422).data.count 'x' = 0 := by decide
  have h4 : (".").data.count 'x' = 0 := by decide
  have h5 : (" Response: ").data.count 'x' = 0 := by decide
  have h6 : (List.replicate 500 'x').count 'x' = 500 := by
    rw [List.count_replicate]
    decide
  rw [h1, h2, h3, h4, h5, h6] at hcount
  omega

/-! Theorems about the spec-modelled rolling-window call-rate gate
(claim C4). -/

lemma rateStart_eq_of_lt (a : Nat → Nat) {i : Nat} (h : i < RPM) :
    rateStart a i = a i := by
  unfold rateStart
  rw [dif_neg (by omega)]

lemma rateStart_eq_of_le (a : Nat → Nat) {i : Nat} (h : RPM ≤ i) :
    rateStart a i = max (a i) (rateStart a (i - RPM) + PER_MINUTE) := by
  conv_lhs => rw [rateStart]
  rw [dif_pos h]

lemma rateStart_ge (a : Nat → Nat) (i : Nat) : a i ≤ rateStart a i := by
  by_cases h : RPM ≤ i
  · rw [rateStart_eq_of_le a h]
    exact le_max_left _ _
  · rw [rateStart_eq_of_lt a (by omega)]

lemma rateStart_gap (a : Nat → Nat) (i : Nat) :
    rateStart a i + PER_MINUTE ≤ rateStart a (i + RPM) := by
  have h : RPM ≤ i + RPM := Nat.le_add_left _ _
  rw [rateStart_eq_of_le a h, Nat.add_sub_cancel]
  exact le_max_right _ _

lemma rateStart_le_succ (a : Nat → Nat) (ha : Monotone a) (n : Nat) :
    rateStart a n ≤ rateStart a (n + 1) := by
  induction n using Nat.strong_induction_on with
  | _ n ih =>
    by_cases h1 : RPM ≤ n
    · have h2 : RPM ≤ n + 1 := by omega
      rw [rateStart_eq_of_le a h1, rateStart_eq_of_le a h2]
      apply max_le
      · exact le_max_of_le_left (ha (by omega))
      · have hlt : n - RPM < n := by
          simp only [RPM] at h1 ⊢
          omega
        have hstep := ih (n - RPM) hlt
        have heq : n + 1 - RPM = n - RPM + 1 := by omega
        rw [heq]
        exact le_max_of_le_right (by omega)
    · by_cases h2 : RPM ≤ n + 1
      · rw [rateStart_eq_of_lt a (by omega), rateStart_eq_of_le a h2]
        exact le_max_of_le_left (ha (by omega))
      · rw [rateStart_eq_of_lt a (by omega), rateStart_eq_of_lt a (by omega)]
        exact ha (by omega)

lemma rateStart_mono (a : Nat → Nat) (ha : Monotone a) :
    Monotone (rateStart a) :=
  monotone_nat_of_le_succ (rateStart_le_succ a ha)

lemma rateStart_ge_add {a : Nat → Nat} (ha : Monotone a) {i j : Nat}
    (h : i + RPM ≤ j) : rateStart a i + PER_MINUTE ≤ rateStart a j :=
  le_trans (rateStart_gap a i) (rateStart_mono a ha h)

/-- C4 (spec-modelled): the rolling-window call-rate gate starts each call no
earlier than its arrival (a call that hits the limit is delayed, never
rejected), and for any nondecreasing arrival pattern at most RPM calls start
within any window [t, t + PER_MINUTE). -/
theorem C4_rate_gate (a : Nat → Nat) (ha : Monotone a) :
    (∀ i, a i ≤ rateStart a i) ∧
    ∀ (t n : Nat),
      ((Finset.range n).filter
          (fun i => t ≤ rateStart a i ∧ rateStart a i < t + PER_MINUTE)).card
        ≤ RPM := by
  refine ⟨rateStart_ge a, ?_⟩
  intro t n
  by_contra hcard
  push_neg at hcard
  set S := (Finset.range n).filter
    (fun i => t ≤ rateStart a i ∧ rateStart a i < t + PER_MINUTE) with hS
  have h15 : 15 < S.card := by simpa [RPM] using hcard
  have hne : S.Nonempty := Finset.card_pos.mp (by omega)
  set m := S.min' hne with hm
  set M := S.max' hne with hM
  have hminS : m ∈ S := S.min'_mem hne
  have hmaxS : M ∈ S := S.max'_mem hne
  have hsub : S ⊆ Finset.Icc m M := by
    intro x hx
    rw [Finset.mem_Icc]
    exact ⟨S.min'_le x hx, S.le_max' x hx⟩
  have hcard2 : S.card ≤ M + 1 - m := by
    have hc := Finset.card_le_card hsub
    rwa [Nat.card_Icc] at hc
  have hgap : m + RPM ≤ M := by
    simp only [RPM]
    omega
  rw [hS, Finset.mem_filter] at hminS hmaxS
  have hge := rateStart_ge_add ha hgap
  have e1 := hminS.2.1
  have e2 := hmaxS.2.2
  simp only [PER_MINUTE] at hge e2
  omega

/-- C4 witness: with identity arrival times, call 0 starts no earlier than it
arrives, and among the first 40 calls at most RPM start inside the window
[0, PER_MINUTE). -/
theorem C4_witness :
    (fun k => k) 0 ≤ rateStart (fun k => k) 0 ∧
    ((Finset.range 40).filter
        (fun i => 0 ≤ rateStart (fun k => k) i ∧
          rateStart (fun k => k) i < 0 + PER_MINUTE)).card ≤ RPM :=
  ⟨(C4_rate_gate (fun k => k) (fun _ _ h => h)).1 0,
   (C4_rate_gate (fun k => k) (fun _ _ h => h)).2 0 40⟩

end Gaia
